import Mathlib

/-!
Verification development for the preride route-difficulty engine.

The embedding follows the source:
* the wind-fetch cache layer (`useWindData.ts`): keys, single-flight in-flight
  map, success/failure resolution — modelled computably over `ℚ`/`ℤ`
  (timestamps are the parsed epoch value of the ISO string);
* the segment scorer (`App.tsx`): bearing, haversine, headwind, grade,
  edge-overlap offsetting and normalisation — modelled over `ℝ`
  (JavaScript numbers are treated as exact reals);
* the bounded-concurrency pool, whose source file (`hooks/windArrows`) is not
  among the provided sources, modelled from the spec as a step relation.
-/

open Real

/-! ### Wind fetch layer (computable model over ℚ / ℤ) -/

/-- An hourly forecast entry.  `time` is the epoch value that
`new Date(e.time).getTime()` yields for the ISO string; speed and direction
are kept as rationals so the cache layer stays executable. -/
structure HourlyWindEntry where
  time : Int
  speed_kmh : ℚ
  direction_deg : ℚ
deriving DecidableEq

/-- JavaScript `Math.round`: round half toward positive infinity. -/
def jsRoundQ (q : ℚ) : ℚ := ((⌊q + 1/2⌋ : ℤ) : ℚ)

/-- Cache key of `useWindData.ts`: both coordinates rounded to 4 decimal
places (`toFixed(4)`); the key string is represented by the pair of rounded
values, which determines it. -/
def cacheKey (lat lon : ℚ) : ℚ × ℚ :=
  (jsRoundQ (lat * 10000) / 10000, jsRoundQ (lon * 10000) / 10000)

/-- State of the module-level wind caches: the permanent `cache`, the
single-flight `inflight` map (the request id stands for the shared promise),
and a counter producing fresh request ids. -/
structure WindState where
  cache : ℚ × ℚ → Option (List HourlyWindEntry)
  inflight : ℚ × ℚ → Option ℕ
  nextId : ℕ

/-- Outcome of one synchronous entry into `fetchWindForPoint`: a cached value
returned immediately, joining the in-flight request `rid`, or starting a new
external request `rid`. -/
inductive FetchResult where
  | cached (entries : List HourlyWindEntry)
  | joined (rid : ℕ)
  | started (rid : ℕ)
deriving DecidableEq

/-- Synchronous prefix of `fetchWindForPoint`: check the permanent cache,
then the in-flight map, else register a fresh in-flight request. -/
def fetchStep (s : WindState) (lat lon : ℚ) : WindState × FetchResult :=
  let key := cacheKey lat lon
  match s.cache key with
  | some es => (s, .cached es)
  | none =>
    match s.inflight key with
    | some rid => (s, .joined rid)
    | none =>
        ({ cache := s.cache,
           inflight := fun k => if k = key then some s.nextId else s.inflight k,
           nextId := s.nextId + 1 },
         .started s.nextId)

/-- Rounding applied to each fetched entry: speed to one decimal place,
direction to an integer. -/
def roundEntry (t : Int) (sp d : ℚ) : HourlyWindEntry :=
  ⟨t, jsRoundQ (sp * 10) / 10, jsRoundQ d⟩

/-- Success-path transform of `fetchWindForPoint`: round each entry, keep
only timestamps at or after `now`, and truncate to the first 24.  The three
parallel arrays are zipped; the source indexes them in lockstep and the API
returns equal lengths. -/
def processEntries (times : List Int) (speeds dirs : List ℚ) (now : Int) :
    List HourlyWindEntry :=
  (((times.zip (speeds.zip dirs)).map fun td => roundEntry td.1 td.2.1 td.2.2).filter
    (fun e => now ≤ e.time)).take 24

/-- Success continuation of the fetch promise: write the processed entries to
the permanent cache, clear the in-flight entry, and return them. -/
def resolveSuccess (s : WindState) (key : ℚ × ℚ) (times : List Int)
    (speeds dirs : List ℚ) (now : Int) : WindState × List HourlyWindEntry :=
  let entries := processEntries times speeds dirs now
  ({ cache := fun k => if k = key then some entries else s.cache k,
     inflight := fun k => if k = key then none else s.inflight k,
     nextId := s.nextId },
   entries)

/-- Failure continuation of the fetch promise: clear the in-flight entry and
leave the permanent cache untouched; the shared promise (identified by its
request id) rejects, so every waiter that joined it observes the error. -/
def resolveFailure (s : WindState) (key : ℚ × ℚ) : WindState :=
  { cache := s.cache,
    inflight := fun k => if k = key then none else s.inflight k,
    nextId := s.nextId }

/-- An empty wind-cache state, as at module load. -/
def windState0 : WindState :=
  { cache := fun _ => none, inflight := fun _ => none, nextId := 0 }

/-- A wind-cache state with key `(0, 0)` in flight as request 0. -/
def windState1 : WindState :=
  { cache := fun _ => none,
    inflight := fun k => if k = ((0 : ℚ), (0 : ℚ)) then some 0 else none,
    nextId := 1 }

/-! ### Concurrency-limited pool (modelled from the spec) -/

/-- Modelled from the spec: the `ConcurrencyLimitedPool` (`pooled` in
`hooks/windArrows`) is not among the provided sources.  Per spec §4.3 it runs
an ordered sequence of `N` zero-argument tasks with at most `k` concurrently
active, releases a slot on success or failure alike, and resolves only once
every task has settled.  `started` counts admitted tasks, `active` the
currently running ones, `settled` the finished ones (success or failure). -/
structure PoolState where
  started : ℕ
  active : ℕ
  settled : ℕ
  resolved : Bool
deriving DecidableEq

/-- Modelled from the spec: the initial pool state — nothing admitted,
nothing settled, not resolved. -/
def PoolState.init : PoolState := ⟨0, 0, 0, false⟩

/-- Modelled from the spec: one scheduling event of the pool.  A task is
admitted only while a slot is free, a running task may settle (covering both
success and failure), and the pool resolves only when every task settled. -/
inductive PoolStep (N k : ℕ) : PoolState → PoolState → Prop where
  | start (s : PoolState) (h1 : s.active < k) (h2 : s.started < N)
      (h3 : s.resolved = false) :
      PoolStep N k s ⟨s.started + 1, s.active + 1, s.settled, false⟩
  | settle (s : PoolState) (h : 0 < s.active) (h3 : s.resolved = false) :
      PoolStep N k s ⟨s.started, s.active - 1, s.settled + 1, false⟩
  | finish (s : PoolState) (h : s.settled = N) (h3 : s.resolved = false) :
      PoolStep N k s ⟨s.started, s.active, s.settled, true⟩

/-- Modelled from the spec: pool states reachable from the initial state. -/
inductive PoolReachable (N k : ℕ) : PoolState → Prop where
  | init : PoolReachable N k PoolState.init
  | step {s t : PoolState} : PoolReachable N k s → PoolStep N k s t →
      PoolReachable N k t

/-- Termination measure for the pool: strictly decreases on every step, so
every run is finite and, with progress, ends resolved with all tasks
settled. -/
def poolMeasure (N : ℕ) (s : PoolState) : ℕ :=
  2 * (N - s.settled) + (N - s.started) + (cond s.resolved 0 1)

/-! ### Geometry and scoring (model over ℝ) -/

/-- A route coordinate, `[lng, lat]` in the source arrays. -/
structure Coord where
  lng : ℝ
  lat : ℝ

/-- A wind sample point `{lat, lon}`. -/
structure SamplePoint where
  lat : ℝ
  lon : ℝ

/-- JavaScript `Math.atan2 y x`, expressed through the complex argument
(both return the angle of `(x, y)` in `(-π, π]`, with `atan2 0 0 = 0`). -/
noncomputable def atan2 (y x : ℝ) : ℝ := Complex.arg (x + y * Complex.I)

/-- JavaScript `%` for a nonnegative dividend and positive divisor (the only
uses in the source): `x - y * ⌊x / y⌋`. -/
noncomputable def jsMod (x y : ℝ) : ℝ := x - y * (⌊x / y⌋ : ℤ)

/-- Great-circle initial bearing (`computeBearing`), degrees in `[0, 360)`. -/
noncomputable def computeBearing (lat1 lng1 lat2 lng2 : ℝ) : ℝ :=
  let dLng := (lng2 - lng1) * π / 180
  let φ1 := lat1 * π / 180
  let φ2 := lat2 * π / 180
  let y := Real.sin dLng * Real.cos φ2
  let x := Real.cos φ1 * Real.sin φ2 - Real.sin φ1 * Real.cos φ2 * Real.cos dLng
  jsMod (atan2 y x * (180 / π) + 360) 360

/-- Smallest unsigned angle (`smallestAngle`), in `[0, 180]`. -/
noncomputable def smallestAngle (a b : ℝ) : ℝ :=
  let d := jsMod |a - b| 360
  if d > 180 then 360 - d else d

/-- Headwind component (`headwindComponent`): positive means headwind. -/
noncomputable def headwindComponent (bearing windFromDeg windSpeedKmh : ℝ) : ℝ :=
  windSpeedKmh * Real.cos (smallestAngle bearing windFromDeg * π / 180)

/-- Clamped headwind as used at the scorer call site:
`headwindRaw = Math.max(0, hw)`. -/
noncomputable def headwindRawOf (bearing windFromDeg windSpeedKmh : ℝ) : ℝ :=
  max 0 (headwindComponent bearing windFromDeg windSpeedKmh)

/-- Haversine distance in metres (`haversineMeters`). -/
noncomputable def haversineMeters (lat1 lng1 lat2 lng2 : ℝ) : ℝ :=
  let dLat := (lat2 - lat1) * π / 180
  let dLng := (lng2 - lng1) * π / 180
  let a := Real.sin (dLat / 2) ^ 2 +
    Real.cos (lat1 * π / 180) * Real.cos (lat2 * π / 180) * Real.sin (dLng / 2) ^ 2
  6371000 * 2 * atan2 (Real.sqrt a) (Real.sqrt (1 - a))

/-- Index of the nearest sample point by squared lat/lon distance
(`nearestSampleIndex`): strict improvement, starting from index 0 with an
infinite best distance (`none`). -/
noncomputable def nearestSampleIndex (midLat midLng : ℝ)
    (pts : List SamplePoint) : ℕ :=
  (pts.enum.foldl
    (fun (acc : ℕ × Option ℝ) ip =>
      let d := (ip.2.lat - midLat) ^ 2 + (ip.2.lon - midLng) ^ 2
      match acc.2 with
      | none => (ip.1, some d)
      | some bd => if d < bd then (ip.1, some d) else acc)
    (0, none)).1

/-- Scoring constant `CLIMB_K`. -/
def CLIMB_K : ℝ := 80

/-- Scoring constant `GRADE_CLAMP`. -/
def GRADE_CLAMP : ℝ := 0.2

/-- Scoring constant `OFFSET_METERS`. -/
def OFFSET_METERS : ℝ := 5

/-- Flat-earth lateral offset (`offsetPoint`), returning `[lng, lat]`. -/
noncomputable def offsetPoint (lat lon bearingDeg distMeters : ℝ) : ℝ × ℝ :=
  let perpRad := (bearingDeg + 90) * π / 180
  let dy := distMeters * Real.cos perpRad
  let dx := distMeters * Real.sin perpRad
  let latOffset := dy / 111111
  let lonOffset := dx / (111111 * Real.cos (lat * π / 180))
  (lon + lonOffset, lat + latOffset)

/-- JavaScript `toFixed(5)` viewed as a value: round half toward positive
infinity at the fifth decimal.  The produced string is determined by this
value, so edge keys compare equal exactly when the rounded values do. -/
noncomputable def round5 (x : ℝ) : ℝ := ((⌊x * 100000 + 1/2⌋ : ℤ) : ℝ) / 100000

/-- An undirected edge key: the two 5-decimal-rounded `(lat, lng)` endpoint
pairs in canonical order.  The source sorts the two endpoint strings; any
linear order yields the same key-equality semantics, and we use the
lexicographic order on the value pairs. -/
def EdgeKey : Type := (ℝ × ℝ) × (ℝ × ℝ)

/-- Lexicographic comparison used to canonicalise an edge key. -/
def lexLe (p q : ℝ × ℝ) : Prop := p.1 < q.1 ∨ (p.1 = q.1 ∧ p.2 ≤ q.2)

open Classical in
/-- Direction-agnostic edge key (`getEdgeKey`): rounded `(lat, lng)` pairs of
the two endpoints, smaller first. -/
noncomputable def getEdgeKey (p1 p2 : Coord) : EdgeKey :=
  let k1 := (round5 p1.lat, round5 p1.lng)
  let k2 := (round5 p2.lat, round5 p2.lng)
  if lexLe k1 k2 then (k1, k2) else (k2, k1)

open Classical in
/-- Pre-pass of `buildSegmentCollection`: traversal count per undirected
edge. -/
noncomputable def edgeCountsOf (coords : List Coord) : EdgeKey → ℕ :=
  (coords.zip coords.tail).foldl
    (fun m pq => fun k => if k = getEdgeKey pq.1 pq.2 then m k + 1 else m k)
    (fun _ => 0)

/-- Per-segment numeric attributes. -/
structure SegStats where
  headwindRaw : ℝ
  grade : ℝ
  climbPenalty : ℝ
  sufferRaw : ℝ

/-- A segment record of the main pass: attributes plus the (possibly offset)
two-point geometry, each point `(lng, lat)`. -/
structure SegRecord extends SegStats where
  coords : (ℝ × ℝ) × (ℝ × ℝ)

/-- An output feature of `buildSegmentCollection`: the segment attributes of
the source's GeoJSON properties (`score` and `totalScore` are both the
normalised suffer score) plus the two-point geometry. -/
structure SegFeature where
  score : ℝ
  headwindRaw : ℝ
  grade : ℝ
  climbPenalty : ℝ
  sufferRaw : ℝ
  totalScore : ℝ
  coords : (ℝ × ℝ) × (ℝ × ℝ)

/-- Numeric attributes of segment `i` (main loop of `buildSegmentCollection`,
statistics part): midpoint, bearing, nearest sample, headwind, grade and
climb penalty, suffer score. -/
noncomputable def segStats (coords : List Coord) (samplePoints : List SamplePoint)
    (allData : List (Option (List HourlyWindEntry))) (hourIndex : ℕ)
    (elevations : List ℝ) (hasElev : Bool) (i : ℕ) : SegStats :=
  let p1 := coords.getD i ⟨0, 0⟩
  let p2 := coords.getD (i + 1) ⟨0, 0⟩
  let midLat := (p1.lat + p2.lat) / 2
  let midLng := (p1.lng + p2.lng) / 2
  let bearing := computeBearing p1.lat p1.lng p2.lat p2.lng
  let nearestIdx :=
    if 0 < samplePoints.length then nearestSampleIndex midLat midLng samplePoints
    else 0
  let entry : Option HourlyWindEntry :=
    ((allData.get? nearestIdx).join).bind fun es => es.get? hourIndex
  let hw := match entry with
    | some e => headwindComponent bearing (e.direction_deg : ℝ) (e.speed_kmh : ℝ)
    | none => 0
  let headwindRaw := max 0 hw
  let gc : ℝ × ℝ :=
    if hasElev then
      let distM := haversineMeters p1.lat p1.lng p2.lat p2.lng
      if distM > 0.1 then
        let rawGrade := (elevations.getD (i + 1) 0 - elevations.getD i 0) / distM
        let g := max (-GRADE_CLAMP) (min GRADE_CLAMP rawGrade)
        if g > 0 then (g, CLIMB_K * g) else (g, 0)
      else (0, 0)
    else (0, 0)
  { headwindRaw := headwindRaw, grade := gc.1, climbPenalty := gc.2,
    sufferRaw := headwindRaw + gc.2 }

open Classical in
/-- Geometry of segment `i` (main loop of `buildSegmentCollection`, offset
part): when the undirected edge is traversed more than once, both endpoints
are shifted `OFFSET_METERS` perpendicular to the travel bearing — sign `+1`
on the first visit and `-1` afterwards — and the per-edge visit counter is
advanced. -/
noncomputable def segOffset (coords : List Coord) (counts visited : EdgeKey → ℕ)
    (i : ℕ) : (((ℝ × ℝ) × (ℝ × ℝ)) × (EdgeKey → ℕ)) :=
  let p1 := coords.getD i ⟨0, 0⟩
  let p2 := coords.getD (i + 1) ⟨0, 0⟩
  let bearing := computeBearing p1.lat p1.lng p2.lat p2.lng
  let edgeKey := getEdgeKey p1 p2
  let totalVisits := if counts edgeKey = 0 then 1 else counts edgeKey
  if totalVisits > 1 then
    let visitsSoFar := visited edgeKey
    let sign : ℝ := if visitsSoFar = 0 then 1 else -1
    ((offsetPoint p1.lat p1.lng bearing (sign * OFFSET_METERS),
      offsetPoint p2.lat p2.lng bearing (sign * OFFSET_METERS)),
     fun k => if k = edgeKey then visitsSoFar + 1 else visited k)
  else
    (((p1.lng, p1.lat), (p2.lng, p2.lat)), visited)

/-- Main pass of `buildSegmentCollection` over the remaining `fuel` segments
starting at index `i`, threading the per-edge visit counter. -/
noncomputable def mainPassAux (coords : List Coord) (samplePoints : List SamplePoint)
    (allData : List (Option (List HourlyWindEntry))) (hourIndex : ℕ)
    (elevations : List ℝ) (hasElev : Bool) (counts : EdgeKey → ℕ) :
    ℕ → ℕ → (EdgeKey → ℕ) → List SegRecord
  | 0, _, _ => []
  | fuel + 1, i, visited =>
      let st := segStats coords samplePoints allData hourIndex elevations hasElev i
      let oc := segOffset coords counts visited i
      ⟨st, oc.1⟩ ::
        mainPassAux coords samplePoints allData hourIndex elevations hasElev counts
          fuel (i + 1) oc.2

/-- All segment records of a route (pre-pass plus main pass). -/
noncomputable def buildSegmentsCore (coords : List Coord)
    (samplePoints : List SamplePoint)
    (allData : List (Option (List HourlyWindEntry))) (hourIndex : ℕ)
    (elevations : List ℝ) (hasElev : Bool) : List SegRecord :=
  mainPassAux coords samplePoints allData hourIndex elevations hasElev
    (edgeCountsOf coords) (coords.length - 1) 0 (fun _ => 0)

/-- Normalisation pass: divide every suffer score by the maximum across the
route, floored at `1e-6`. -/
noncomputable def finalize (segs : List SegRecord) : List SegFeature :=
  let maxRaw := (segs.map fun s => s.sufferRaw).foldr max (1e-6)
  segs.map fun s =>
    { score := s.sufferRaw / maxRaw, headwindRaw := s.headwindRaw,
      grade := s.grade, climbPenalty := s.climbPenalty,
      sufferRaw := s.sufferRaw, totalScore := s.sufferRaw / maxRaw,
      coords := s.coords }

/-- The scorer `buildSegmentCollection`: routes shorter than 2 points yield an
empty collection; otherwise elevation participates only when enabled and
covering every route point. -/
noncomputable def buildSegmentCollection (coords : List Coord)
    (samplePoints : List SamplePoint)
    (allData : List (Option (List HourlyWindEntry))) (hourIndex : ℕ)
    (elevations : List ℝ) (includeElevation : Bool) : List SegFeature :=
  if coords.length < 2 then []
  else
    finalize (buildSegmentsCore coords samplePoints allData hourIndex elevations
      (includeElevation && decide (elevations.length = coords.length)))

/-- The out-and-back demonstration route `[[0,0],[0,1],[0,0]]`. -/
def demoRoute : List Coord := [⟨0, 0⟩, ⟨0, 1⟩, ⟨0, 0⟩]

/-- Haversine length of segment `i` of a route, as computed in the main
loop. -/
noncomputable def segDistance (coords : List Coord) (i : ℕ) : ℝ :=
  haversineMeters (coords.getD i ⟨0, 0⟩).lat (coords.getD i ⟨0, 0⟩).lng
    (coords.getD (i + 1) ⟨0, 0⟩).lat (coords.getD (i + 1) ⟨0, 0⟩).lng

/-- Raw elevation grade of segment `i`: elevation delta over segment
distance, before clamping. -/
noncomputable def segRawGrade (coords : List Coord) (el : List ℝ) (i : ℕ) : ℝ :=
  (el.getD (i + 1) 0 - el.getD i 0) / segDistance coords i

/-- A zero segment feature, used as the out-of-range default when indexing
the output collection. -/
def emptyFeature : SegFeature := ⟨0, 0, 0, 0, 0, 0, ((0, 0), (0, 0))⟩

/-! ### Helper lemmas -/

lemma fetchStep_of_cached {s : WindState} {lat lon : ℚ} {es : List HourlyWindEntry}
    (h : s.cache (cacheKey lat lon) = some es) :
    fetchStep s lat lon = (s, .cached es) := by
  simp [fetchStep, h]

lemma fetchStep_of_inflight {s : WindState} {lat lon : ℚ} {rid : ℕ}
    (hc : s.cache (cacheKey lat lon) = none)
    (hi : s.inflight (cacheKey lat lon) = some rid) :
    fetchStep s lat lon = (s, .joined rid) := by
  simp [fetchStep, hc, hi]

lemma fetchStep_of_fresh {s : WindState} {lat lon : ℚ}
    (hc : s.cache (cacheKey lat lon) = none)
    (hi : s.inflight (cacheKey lat lon) = none) :
    fetchStep s lat lon =
      ({ cache := s.cache,
         inflight := fun k => if k = cacheKey lat lon then some s.nextId
           else s.inflight k,
         nextId := s.nextId + 1 },
       .started s.nextId) := by
  simp [fetchStep, hc, hi]

lemma processEntries_time_ge {times : List Int} {speeds dirs : List ℚ} {now : Int}
    {e : HourlyWindEntry} (h : e ∈ processEntries times speeds dirs now) :
    now ≤ e.time := by
  have h1 := List.mem_of_mem_take h
  have h2 := (List.mem_filter.1 h1).2
  exact of_decide_eq_true h2

lemma processEntries_shape {times : List Int} {speeds dirs : List ℚ} {now : Int}
    {e : HourlyWindEntry} (h : e ∈ processEntries times speeds dirs now) :
    (∃ n : ℤ, e.speed_kmh = (n : ℚ) / 10) ∧ (∃ m : ℤ, e.direction_deg = (m : ℚ)) := by
  have h1 := List.mem_of_mem_take h
  have h2 := (List.mem_filter.1 h1).1
  obtain ⟨td, _, rfl⟩ := List.mem_map.1 h2
  exact ⟨⟨⌊td.2.1 * 10 + 1/2⌋, rfl⟩, ⟨⌊td.2.2 + 1/2⌋, rfl⟩⟩

lemma processEntries_length {times : List Int} {speeds dirs : List ℚ} {now : Int} :
    (processEntries times speeds dirs now).length ≤ 24 := by
  simp [processEntries]

lemma processEntries_all_past (times : List Int) (speeds dirs : List ℚ) (now : Int)
    (h : ∀ t ∈ times, t < now) :
    processEntries times speeds dirs now = [] := by
  have : (((times.zip (speeds.zip dirs)).map
      fun td => roundEntry td.1 td.2.1 td.2.2).filter
        (fun e => now ≤ e.time)) = [] := by
    apply List.filter_eq_nil_iff.2
    intro e he
    obtain ⟨td, htd, rfl⟩ := List.mem_map.1 he
    have ht : td.1 ∈ times := (List.of_mem_zip htd).1
    simpa [roundEntry] using not_le.2 (h td.1 ht)
  simp [processEntries, this]

lemma le_foldr_max {l : List ℝ} {x : ℝ} (b : ℝ) (hx : x ∈ l) :
    x ≤ l.foldr max b := by
  induction l with
  | nil => cases hx
  | cons a t ih =>
      rcases List.mem_cons.1 hx with rfl | hx'
      · exact le_max_left _ _
      · exact le_trans (ih hx') (le_max_right _ _)

lemma base_le_foldr_max (l : List ℝ) (b : ℝ) : b ≤ l.foldr max b := by
  induction l with
  | nil => exact le_rfl
  | cons a t ih => exact le_trans ih (le_max_right _ _)

lemma foldr_max_le {l : List ℝ} {b x : ℝ} (hall : ∀ y ∈ l, y ≤ x) (hb : b ≤ x) :
    l.foldr max b ≤ x := by
  induction l with
  | nil => exact hb
  | cons a t ih =>
      exact max_le (hall a (List.mem_cons_self a t))
        (ih fun y hy => hall y (List.mem_cons_of_mem a hy))

lemma foldr_max_eq {l : List ℝ} {b x : ℝ} (hx : x ∈ l) (hall : ∀ y ∈ l, y ≤ x)
    (hb : b ≤ x) : l.foldr max b = x :=
  le_antisymm (foldr_max_le hall hb) (le_foldr_max b hx)

lemma exists_max_mem_cons (a : ℝ) (t : List ℝ) :
    ∃ m ∈ a :: t, ∀ y ∈ a :: t, y ≤ m := by
  induction t generalizing a with
  | nil =>
      refine ⟨a, List.mem_cons_self a [], ?_⟩
      intro y hy
      rcases List.mem_cons.1 hy with rfl | h
      · exact le_rfl
      · cases h
  | cons c t' ih =>
      obtain ⟨m, hm, hmax⟩ := ih c
      by_cases hcmp : a ≤ m
      · refine ⟨m, List.mem_cons_of_mem a hm, ?_⟩
        intro y hy
        rcases List.mem_cons.1 hy with rfl | h
        · exact hcmp
        · exact hmax y h
      · refine ⟨a, List.mem_cons_self a _, ?_⟩
        intro y hy
        rcases List.mem_cons.1 hy with rfl | h
        · exact le_rfl
        · exact le_trans (hmax y h) (le_of_not_le hcmp)

lemma exists_max_mem {l : List ℝ} {x : ℝ} (hx : x ∈ l) :
    ∃ m ∈ l, ∀ y ∈ l, y ≤ m := by
  rcases l with _ | ⟨a, t⟩
  · cases hx
  · exact exists_max_mem_cons a t

lemma pool_inv {N k : ℕ} {s : PoolState} (hs : PoolReachable N k s) :
    s.active ≤ k ∧ s.started = s.settled + s.active ∧ s.started ≤ N ∧
      (s.resolved = true → s.settled = N) := by
  induction hs with
  | init => exact ⟨Nat.zero_le _, rfl, Nat.zero_le _, by simp [PoolState.init]⟩
  | step _ hstep ih =>
      obtain ⟨h1, h2, h3, h4⟩ := ih
      cases hstep with
      | start ha hb hres =>
          exact ⟨by simp; omega, by simp; omega, by simp; omega, by simp⟩
      | settle ha hres =>
          exact ⟨by simp; omega, by simp; omega, by simp; omega, by simp⟩
      | finish ha hres =>
          exact ⟨h1, h2, h3, fun _ => ha⟩

lemma pool_progress {N k : ℕ} {s : PoolState} (hs : PoolReachable N k s)
    (hk : 1 ≤ k) (hres : s.resolved = false) : ∃ t, PoolStep N k s t := by
  obtain ⟨h1, h2, h3, _⟩ := pool_inv hs
  by_cases hfin : s.settled = N
  · exact ⟨_, PoolStep.finish s hfin hres⟩
  · by_cases hact : 0 < s.active
    · exact ⟨_, PoolStep.settle s hact hres⟩
    · exact ⟨_, PoolStep.start s (by omega) (by omega) hres⟩

lemma pool_measure_dec {N k : ℕ} {s t : PoolState} (hs : PoolReachable N k s)
    (hstep : PoolStep N k s t) : poolMeasure N t < poolMeasure N s := by
  obtain ⟨h1, h2, h3, _⟩ := pool_inv hs
  cases hstep with
  | start ha hb hres => simp [poolMeasure, hres]; omega
  | settle ha hres =>
      have hsettled : s.settled < N := by omega
      simp [poolMeasure, hres]; omega
  | finish ha hres => simp [poolMeasure, hres]

lemma jsMod_nonneg (x : ℝ) {y : ℝ} (hy : 0 < y) : 0 ≤ jsMod x y := by
  have h := Int.floor_le (x / y)
  have : y * (⌊x / y⌋ : ℝ) ≤ y * (x / y) := by
    exact mul_le_mul_of_nonneg_left h hy.le
  rw [mul_div_cancel₀ _ hy.ne'] at this
  simpa [jsMod] using this

lemma jsMod_lt (x : ℝ) {y : ℝ} (hy : 0 < y) : jsMod x y < y := by
  have h := Int.lt_floor_add_one (x / y)
  have : y * (x / y) < y * ((⌊x / y⌋ : ℝ) + 1) := mul_lt_mul_of_pos_left h hy
  rw [mul_div_cancel₀ _ hy.ne'] at this
  simp only [jsMod]
  nlinarith

lemma smallestAngle_nonneg (a b : ℝ) : 0 ≤ smallestAngle a b := by
  have h1 := jsMod_nonneg |a - b| (show (0:ℝ) < 360 by norm_num)
  have h2 := jsMod_lt |a - b| (show (0:ℝ) < 360 by norm_num)
  simp only [smallestAngle]
  split_ifs with h <;> linarith

lemma smallestAngle_le_180 (a b : ℝ) : smallestAngle a b ≤ 180 := by
  have h1 := jsMod_nonneg |a - b| (show (0:ℝ) < 360 by norm_num)
  have h2 := jsMod_lt |a - b| (show (0:ℝ) < 360 by norm_num)
  simp only [smallestAngle]
  split_ifs with h <;> linarith

lemma headwind_cos_antitone {s θ1 θ2 : ℝ} (hs : 0 ≤ s) (h1 : 0 ≤ θ1)
    (h2 : θ2 ≤ 180) (h12 : θ1 ≤ θ2) :
    s * Real.cos (θ2 * π / 180) ≤ s * Real.cos (θ1 * π / 180) := by
  have hpi : (0:ℝ) < π := Real.pi_pos
  have ha1 : 0 ≤ θ1 * π / 180 := by positivity
  have ha2 : θ2 * π / 180 ≤ π := by nlinarith
  have ha12 : θ1 * π / 180 ≤ θ2 * π / 180 := by nlinarith
  exact mul_le_mul_of_nonneg_left
    (Real.cos_le_cos_of_nonneg_of_le_pi ha1 ha2 ha12) hs

lemma segStats_climbPenalty_nonneg (c : List Coord) (sp : List SamplePoint)
    (ad : List (Option (List HourlyWindEntry))) (h : ℕ) (el : List ℝ)
    (he : Bool) (i : ℕ) : 0 ≤ (segStats c sp ad h el he i).climbPenalty := by
  simp only [segStats]
  split_ifs with h1 h2 h3
  · simp only [CLIMB_K, GRADE_CLAMP] at h3 ⊢
    nlinarith [h3]
  · simp
  · simp
  · simp

lemma segStats_headwindRaw_nonneg (c : List Coord) (sp : List SamplePoint)
    (ad : List (Option (List HourlyWindEntry))) (h : ℕ) (el : List ℝ)
    (he : Bool) (i : ℕ) : 0 ≤ (segStats c sp ad h el he i).headwindRaw := by
  simp only [segStats]
  exact le_max_left _ _

lemma segStats_suffer_eq (c : List Coord) (sp : List SamplePoint)
    (ad : List (Option (List HourlyWindEntry))) (h : ℕ) (el : List ℝ)
    (he : Bool) (i : ℕ) :
    (segStats c sp ad h el he i).sufferRaw =
      (segStats c sp ad h el he i).headwindRaw +
        (segStats c sp ad h el he i).climbPenalty := by
  simp only [segStats]

lemma segStats_suffer_nonneg (c : List Coord) (sp : List SamplePoint)
    (ad : List (Option (List HourlyWindEntry))) (h : ℕ) (el : List ℝ)
    (he : Bool) (i : ℕ) : 0 ≤ (segStats c sp ad h el he i).sufferRaw := by
  rw [segStats_suffer_eq]
  exact add_nonneg (segStats_headwindRaw_nonneg c sp ad h el he i)
    (segStats_climbPenalty_nonneg c sp ad h el he i)

lemma mainPassAux_mem_stats (c : List Coord) (sp : List SamplePoint)
    (ad : List (Option (List HourlyWindEntry))) (h : ℕ) (el : List ℝ)
    (he : Bool) (counts : EdgeKey → ℕ) :
    ∀ (fuel i : ℕ) (v : EdgeKey → ℕ) (r : SegRecord),
      r ∈ mainPassAux c sp ad h el he counts fuel i v →
      ∃ j, j < fuel ∧ r.toSegStats = segStats c sp ad h el he (i + j) := by
  intro fuel
  induction fuel with
  | zero => intro i v r hr; cases hr
  | succ n ih =>
      intro i v r hr
      rw [mainPassAux] at hr
      rcases List.mem_cons.1 hr with rfl | hr'
      · exact ⟨0, Nat.succ_pos n, rfl⟩
      · obtain ⟨j, hj, hs⟩ := ih (i + 1) _ r hr'
        exact ⟨j + 1, by omega, by rw [hs]; ring_nf⟩

lemma mainPassAux_get_stats (c : List Coord) (sp : List SamplePoint)
    (ad : List (Option (List HourlyWindEntry))) (h : ℕ) (el : List ℝ)
    (he : Bool) (counts : EdgeKey → ℕ) :
    ∀ (fuel i j : ℕ) (v : EdgeKey → ℕ) (r : SegRecord),
      (mainPassAux c sp ad h el he counts fuel i v).get? j = some r →
      r.toSegStats = segStats c sp ad h el he (i + j) := by
  intro fuel
  induction fuel with
  | zero => intro i j v r hr; simp [mainPassAux] at hr
  | succ n ih =>
      intro i j v r hr
      rw [mainPassAux] at hr
      rcases j with _ | j'
      · simp at hr
        rw [← hr]
        simp
      · simp only [List.get?_cons_succ] at hr
        have := ih (i + 1) j' _ r hr
        rw [this]; ring_nf

lemma mainPassAux_length (c : List Coord) (sp : List SamplePoint)
    (ad : List (Option (List HourlyWindEntry))) (h : ℕ) (el : List ℝ)
    (he : Bool) (counts : EdgeKey → ℕ) :
    ∀ (fuel i : ℕ) (v : EdgeKey → ℕ),
      (mainPassAux c sp ad h el he counts fuel i v).length = fuel := by
  intro fuel
  induction fuel with
  | zero => intro i v; rw [mainPassAux]; rfl
  | succ n ih =>
      intro i v
      rw [mainPassAux]
      simp [ih]

/-! ### Claim theorems -/

/-- C8: for every route coordinate sequence of length less than 2 (empty or
single-point), the scorer returns an empty segment collection rather than an
error, regardless of the sample points, wind data, hour index, elevations, or
elevation toggle supplied. -/
theorem shortRoute_empty (coords : List Coord) (samplePoints : List SamplePoint)
    (allData : List (Option (List HourlyWindEntry))) (hourIndex : ℕ)
    (elevations : List ℝ) (includeElevation : Bool)
    (hlen : coords.length < 2) :
    buildSegmentCollection coords samplePoints allData hourIndex elevations
      includeElevation = [] := by
  rw [buildSegmentCollection, if_pos hlen]

/-- Witness for C8 at the empty route and a single-point route. -/
theorem shortRoute_empty_witness :
    buildSegmentCollection [] [] [] 0 [] false = [] ∧
      buildSegmentCollection [⟨0, 0⟩] [] [] 3 [1] true = [] :=
  ⟨shortRoute_empty [] [] [] 0 [] false (by simp),
   shortRoute_empty [⟨0, 0⟩] [] [] 3 [1] true (by simp)⟩

/-- C5: calls are keyed by the 4-decimal-rounded coordinate key; a call
finding the key cached returns the cached series unchanged, a call finding it
in flight joins that same pending request, a call finding neither starts a
single new request and registers it in flight (leaving other keys alone), and
two consecutive calls for the same fresh key trigger exactly one underlying
request: the first starts it, the second joins it. -/
theorem windFetch_single_flight (s : WindState) (lat lon : ℚ) :
    (∀ es, s.cache (cacheKey lat lon) = some es →
      fetchStep s lat lon = (s, .cached es)) ∧
    (∀ rid, s.cache (cacheKey lat lon) = none →
      s.inflight (cacheKey lat lon) = some rid →
      fetchStep s lat lon = (s, .joined rid)) ∧
    (s.cache (cacheKey lat lon) = none →
      s.inflight (cacheKey lat lon) = none →
      (fetchStep s lat lon).2 = .started s.nextId ∧
      (fetchStep s lat lon).1.inflight (cacheKey lat lon) = some s.nextId ∧
      (fetchStep s lat lon).1.cache = s.cache ∧
      (∀ k, k ≠ cacheKey lat lon →
        (fetchStep s lat lon).1.inflight k = s.inflight k)) ∧
    (s.cache (cacheKey lat lon) = none →
      s.inflight (cacheKey lat lon) = none →
      (fetchStep (fetchStep s lat lon).1 lat lon).2 = .joined s.nextId ∧
      (fetchStep (fetchStep s lat lon).1 lat lon).1 = (fetchStep s lat lon).1) := by
  refine ⟨fun es h => fetchStep_of_cached h,
    fun rid hc hi => fetchStep_of_inflight hc hi, ?_, ?_⟩
  · intro hc hi
    rw [fetchStep_of_fresh hc hi]
    refine ⟨rfl, by simp, rfl, ?_⟩
    intro k hk
    simp [hk]
  · intro hc hi
    rw [fetchStep_of_fresh hc hi]
    constructor
    · simp [fetchStep, hc]
    · simp [fetchStep, hc]

/-- Witness for C5 at the empty cache state: the first call starts request 0
and the second call joins it. -/
theorem windFetch_single_flight_witness :
    (fetchStep windState0 0 0).2 = .started 0 ∧
      (fetchStep (fetchStep windState0 0 0).1 0 0).2 = .joined 0 := by
  have h3 := (windFetch_single_flight windState0 0 0).2.2.1 rfl rfl
  have h4 := (windFetch_single_flight windState0 0 0).2.2.2 rfl rfl
  exact ⟨h3.1, h4.1⟩

/-- C6: on a successful wind fetch, the series returned and written to the
permanent cache for the key consists exactly of the fetched entries with
timestamp at or after the current time, truncated to the first 24, with speed
rounded to one decimal place and direction rounded to an integer; the
in-flight entry for that key is cleared and other keys are untouched. -/
theorem windFetch_success_writes (s : WindState) (key : ℚ × ℚ)
    (times : List Int) (speeds dirs : List ℚ) (now : Int) :
    (resolveSuccess s key times speeds dirs now).2 =
      (((times.zip (speeds.zip dirs)).map
        fun td => roundEntry td.1 td.2.1 td.2.2).filter
          (fun e => now ≤ e.time)).take 24 ∧
    (resolveSuccess s key times speeds dirs now).1.cache key =
      some (resolveSuccess s key times speeds dirs now).2 ∧
    (resolveSuccess s key times speeds dirs now).1.inflight key = none ∧
    (∀ k, k ≠ key →
      (resolveSuccess s key times speeds dirs now).1.cache k = s.cache k ∧
      (resolveSuccess s key times speeds dirs now).1.inflight k = s.inflight k) ∧
    (resolveSuccess s key times speeds dirs now).2.length ≤ 24 ∧
    (∀ e ∈ (resolveSuccess s key times speeds dirs now).2,
      now ≤ e.time ∧ (∃ n : ℤ, e.speed_kmh = (n : ℚ) / 10) ∧
      (∃ m : ℤ, e.direction_deg = (m : ℚ))) := by
  refine ⟨rfl, by simp [resolveSuccess], by simp [resolveSuccess], ?_, ?_, ?_⟩
  · intro k hk
    constructor <;> simp [resolveSuccess, hk]
  · exact processEntries_length
  · intro e he
    exact ⟨processEntries_time_ge he, processEntries_shape he⟩

/-- Witness for C6 on a concrete fetch: one stale and one future entry, the
future entry rounded and kept. -/
theorem windFetch_success_writes_witness :
    (resolveSuccess windState0 (0, 0) [0, 100] [1/3, 39/20] [5/2, 181/2] 50).1.cache
        (0, 0) = some [⟨100, 2, 91⟩] ∧
      (∀ e ∈ (resolveSuccess windState0 (0, 0) [0, 100] [1/3, 39/20]
          [5/2, 181/2] 50).2, (50:ℤ) ≤ e.time) := by
  have h := windFetch_success_writes windState0 (0, 0) [0, 100] [1/3, 39/20]
    [5/2, 181/2] 50
  refine ⟨?_, fun e he => (h.2.2.2.2.2 e he).1⟩
  have h2 := h.2.1
  have h1 : (resolveSuccess windState0 (0, 0) [0, 100] [1/3, 39/20]
      [5/2, 181/2] 50).2 = [⟨100, 2, 91⟩] := by
    simp [resolveSuccess, processEntries, roundEntry, jsRoundQ]
    norm_num
  rw [h1] at h2
  exact h2

/-- C7: on a failed wind fetch, the in-flight entry for the key is cleared
(the shared rejected promise reaches every waiter that joined it), the
permanent cache is left exactly as it was — in particular unset for that
key — other keys' in-flight entries are untouched, and a subsequent call for
the same key issues a new external request. -/
theorem windFetch_failure_clears (s : WindState) (lat lon : ℚ)
    (hc : s.cache (cacheKey lat lon) = none) :
    (resolveFailure s (cacheKey lat lon)).inflight (cacheKey lat lon) = none ∧
    (∀ k, (resolveFailure s (cacheKey lat lon)).cache k = s.cache k) ∧
    (∀ k, k ≠ cacheKey lat lon →
      (resolveFailure s (cacheKey lat lon)).inflight k = s.inflight k) ∧
    (fetchStep (resolveFailure s (cacheKey lat lon)) lat lon).2 =
      .started s.nextId := by
  refine ⟨by simp [resolveFailure], fun k => rfl, ?_, ?_⟩
  · intro k hk
    simp [resolveFailure, hk]
  · simp [fetchStep, resolveFailure, hc]

/-- Witness for C7: a state with key `(0, 0)` in flight; the failure clears
it and the next call starts a fresh request. -/
theorem windFetch_failure_clears_witness :
    (resolveFailure windState1 (cacheKey 0 0)).inflight (cacheKey 0 0) = none ∧
      (fetchStep (resolveFailure windState1 (cacheKey 0 0)) 0 0).2 =
        .started 1 := by
  have h := windFetch_failure_clears windState1 0 0 rfl
  exact ⟨h.1, h.2.2.2⟩

/-- C10: a successful fetch whose entries are all in the past writes the
empty list to the permanent cache, and every subsequent call for the same key
returns that cached empty list without issuing a new request — a
successful-but-empty result, unlike a failure, is never retried. -/
theorem windFetch_empty_success_cached (s : WindState) (lat lon : ℚ)
    (times : List Int) (speeds dirs : List ℚ) (now : Int)
    (hpast : ∀ t ∈ times, t < now) :
    (resolveSuccess s (cacheKey lat lon) times speeds dirs now).2 = [] ∧
    (resolveSuccess s (cacheKey lat lon) times speeds dirs now).1.cache
      (cacheKey lat lon) = some [] ∧
    fetchStep (resolveSuccess s (cacheKey lat lon) times speeds dirs now).1
        lat lon =
      ((resolveSuccess s (cacheKey lat lon) times speeds dirs now).1,
        .cached []) := by
  have hempty := processEntries_all_past times speeds dirs now hpast
  have hcache : (resolveSuccess s (cacheKey lat lon) times speeds dirs
      now).1.cache (cacheKey lat lon) = some [] := by
    simp [resolveSuccess, hempty]
  refine ⟨by simp [resolveSuccess, hempty], hcache, fetchStep_of_cached hcache⟩

/-- Witness for C10: a fetch at `now = 5` returning only a stale entry at
time 0 caches the empty list, and the next call returns it from cache. -/
theorem windFetch_empty_success_cached_witness :
    (resolveSuccess windState0 (cacheKey 0 0) [0] [1] [2] 5).1.cache
        (cacheKey 0 0) = some [] ∧
      (fetchStep (resolveSuccess windState0 (cacheKey 0 0) [0] [1] [2] 5).1
          0 0).2 = .cached [] := by
  have h := windFetch_empty_success_cached windState0 0 0 [0] [1] [2] 5
    (by intro t ht; simp at ht; omega)
  exact ⟨h.2.1, by rw [h.2.2]⟩

/-- C9 (modelled from the spec, the pool source file being absent): in every
pool state reachable with limit `k ≥ 1`, at most `k` tasks are concurrently
active; the pool is resolved only once all `N` tasks have settled; an
unresolved pool can always take another step (so no task is stranded); and
every step strictly decreases a natural measure, so every run is finite and —
combined with progress — ends resolved with all `N` tasks settled, even when
some of the settle events are failures. -/
theorem pool_bounded_settles (N k : ℕ) (s : PoolState)
    (hs : PoolReachable N k s) (hk : 1 ≤ k) :
    s.active ≤ k ∧
    (s.resolved = true → s.settled = N) ∧
    (s.resolved = false → ∃ t, PoolStep N k s t) ∧
    (∀ t, PoolStep N k s t → poolMeasure N t < poolMeasure N s) :=
  ⟨(pool_inv hs).1, (pool_inv hs).2.2.2,
    fun hres => pool_progress hs hk hres,
    fun _ ht => pool_measure_dec hs ht⟩

/-- Witness for C9 at the initial state of a two-task pool with limit 1. -/
theorem pool_bounded_settles_witness :
    PoolState.init.active ≤ 1 ∧
      (PoolState.init.resolved = true → PoolState.init.settled = 2) ∧
      (PoolState.init.resolved = false → ∃ t, PoolStep 2 1 PoolState.init t) ∧
      (∀ t, PoolStep 2 1 PoolState.init t →
        poolMeasure 2 t < poolMeasure 2 PoolState.init) :=
  pool_bounded_settles 2 1 PoolState.init PoolReachable.init (le_refl 1)

/-- C3: with the travel bearing, the wind "from" direction and a fixed wind
speed `s ≥ 0`, the clamped headwind is exactly
`max 0 (s * cos(angularDifference))`; it is monotonically decreasing in the
angular difference, equals exactly `s` at difference 0, equals exactly 0 at
difference 90, and is never negative. -/
theorem headwind_properties (s : ℝ) (hs : 0 ≤ s) :
    (∀ b w, headwindRawOf b w s =
      max 0 (s * Real.cos (smallestAngle b w * π / 180))) ∧
    (∀ b1 w1 b2 w2, smallestAngle b1 w1 ≤ smallestAngle b2 w2 →
      headwindRawOf b2 w2 s ≤ headwindRawOf b1 w1 s) ∧
    (∀ b w, smallestAngle b w = 0 → headwindRawOf b w s = s) ∧
    (∀ b w, smallestAngle b w = 90 → headwindRawOf b w s = 0) ∧
    (∀ b w, 0 ≤ headwindRawOf b w s) := by
  refine ⟨fun b w => rfl, ?_, ?_, ?_, fun b w => le_max_left _ _⟩
  · intro b1 w1 b2 w2 h12
    apply max_le_max (le_refl 0)
    exact headwind_cos_antitone hs (smallestAngle_nonneg b1 w1)
      (smallestAngle_le_180 b2 w2) h12
  · intro b w h0
    rw [headwindRawOf, headwindComponent, h0]
    simp [max_eq_right hs]
  · intro b w h90
    rw [headwindRawOf, headwindComponent, h90]
    rw [show (90 : ℝ) * π / 180 = π / 2 by ring]
    simp

/-- Witness for C3 at speed 1: zero angular difference gives headwind 1, and
a 90-degree difference gives headwind 0. -/
theorem headwind_properties_witness :
    headwindRawOf 0 0 1 = 1 ∧ headwindRawOf 0 90 1 = 0 := by
  have h1 := (headwind_properties 1 (by norm_num)).2.2.1 0 0
  have h2 := (headwind_properties 1 (by norm_num)).2.2.2.1 0 90
  refine ⟨h1 ?_, h2 ?_⟩
  · simp [smallestAngle, jsMod]
  · have : |(0 : ℝ) - 90| = 90 := by norm_num
    rw [smallestAngle, this]
    have hfl : ⌊(90 : ℝ) / 360⌋ = 0 := by norm_num
    rw [jsMod, hfl]
    norm_num

/-- C2: for every route of length at least 2, every output segment's
normalised score (`totalScore`, the source's `score`) lies in `[0, 1]`;
whenever some segment's raw suffer score exceeds the `1e-6` epsilon, a
segment scores exactly 1 and every maximal-suffer segment scores exactly 1;
and if every segment's raw suffer score is 0, all segments score 0. -/
theorem normalizedScore_bounds (coords : List Coord) (sp : List SamplePoint)
    (ad : List (Option (List HourlyWindEntry))) (h : ℕ) (el : List ℝ)
    (inc : Bool) (hlen : 2 ≤ coords.length) :
    (∀ f ∈ buildSegmentCollection coords sp ad h el inc,
      0 ≤ f.totalScore ∧ f.totalScore ≤ 1) ∧
    ((∃ f ∈ buildSegmentCollection coords sp ad h el inc,
        1e-6 < f.sufferRaw) →
      (∃ f ∈ buildSegmentCollection coords sp ad h el inc, f.totalScore = 1) ∧
      (∀ f ∈ buildSegmentCollection coords sp ad h el inc,
        (∀ g ∈ buildSegmentCollection coords sp ad h el inc,
          g.sufferRaw ≤ f.sufferRaw) → f.totalScore = 1)) ∧
    ((∀ f ∈ buildSegmentCollection coords sp ad h el inc, f.sufferRaw = 0) →
      ∀ f ∈ buildSegmentCollection coords sp ad h el inc, f.totalScore = 0) := by
  have hneg : ¬ coords.length < 2 := by omega
  rw [buildSegmentCollection, if_neg hneg]
  set segs := buildSegmentsCore coords sp ad h el
    (inc && decide (el.length = coords.length)) with hsegs
  set M := (segs.map fun s => s.sufferRaw).foldr max (1e-6) with hMdef
  have hMpos : (0 : ℝ) < M :=
    lt_of_lt_of_le (by norm_num) (base_le_foldr_max _ _)
  have hfin : finalize segs = segs.map fun s =>
      ({ score := s.sufferRaw / M, headwindRaw := s.headwindRaw,
         grade := s.grade, climbPenalty := s.climbPenalty,
         sufferRaw := s.sufferRaw, totalScore := s.sufferRaw / M,
         coords := s.coords } : SegFeature) := rfl
  rw [hfin]
  have hnn : ∀ s ∈ segs, 0 ≤ s.sufferRaw := by
    intro r hr
    rw [hsegs] at hr
    simp only [buildSegmentsCore] at hr
    obtain ⟨j, _, hj⟩ :=
      mainPassAux_mem_stats coords sp ad h el _ _ _ _ _ r hr
    have h0 : 0 ≤ r.toSegStats.sufferRaw := by
      rw [hj]; exact segStats_suffer_nonneg _ _ _ _ _ _ _
    exact h0
  have hleM : ∀ s ∈ segs, s.sufferRaw ≤ M := by
    intro s hs
    exact le_foldr_max _ (List.mem_map_of_mem _ hs)
  refine ⟨?_, ?_, ?_⟩
  · intro f hf
    obtain ⟨s, hsm, rfl⟩ := List.mem_map.1 hf
    exact ⟨div_nonneg (hnn s hsm) hMpos.le, (div_le_one hMpos).2 (hleM s hsm)⟩
  · rintro ⟨f, hf, hgt⟩
    obtain ⟨s0, hs0, rfl⟩ := List.mem_map.1 hf
    have hgt0 : (1e-6 : ℝ) < s0.sufferRaw := hgt
    obtain ⟨m, hm, hmax⟩ :=
      exists_max_mem (List.mem_map_of_mem (fun s => s.sufferRaw) hs0)
    obtain ⟨s1, hs1, hm1⟩ := List.mem_map.1 hm
    have hs0le : s0.sufferRaw ≤ m :=
      hmax _ (List.mem_map_of_mem (fun s => s.sufferRaw) hs0)
    have hMeq : M = m := foldr_max_eq hm hmax (by linarith)
    have hmpos : (0 : ℝ) < m := by
      have : (0 : ℝ) < 1e-6 := by norm_num
      linarith
    constructor
    · refine ⟨_, List.mem_map_of_mem _ hs1, ?_⟩
      show s1.sufferRaw / M = 1
      rw [hMeq, hm1]
      exact div_self hmpos.ne'
    · intro f2 hf2 hall
      obtain ⟨s2, hs2, rfl⟩ := List.mem_map.1 hf2
      have hall2 : ∀ y ∈ segs.map fun s => s.sufferRaw, y ≤ s2.sufferRaw := by
        intro y hy
        obtain ⟨t, ht, rfl⟩ := List.mem_map.1 hy
        exact hall _ (List.mem_map_of_mem _ ht)
      have hs02 : s0.sufferRaw ≤ s2.sufferRaw :=
        hall _ (List.mem_map_of_mem _ hs0)
      have hMeq2 : M = s2.sufferRaw :=
        foldr_max_eq (List.mem_map_of_mem (fun s => s.sufferRaw) hs2) hall2
          (by linarith)
      show s2.sufferRaw / M = 1
      rw [hMeq2]
      exact div_self (by linarith)
  · intro hall f hf
    obtain ⟨s, hs, rfl⟩ := List.mem_map.1 hf
    have hz : s.sufferRaw = 0 := hall _ (List.mem_map_of_mem _ hs)
    show s.sufferRaw / M = 0
    rw [hz, zero_div]

lemma buildSegmentCollection_length (coords : List Coord)
    (sp : List SamplePoint) (ad : List (Option (List HourlyWindEntry)))
    (h : ℕ) (el : List ℝ) (inc : Bool) (hlen : 2 ≤ coords.length) :
    (buildSegmentCollection coords sp ad h el inc).length =
      coords.length - 1 := by
  rw [buildSegmentCollection, if_neg (by omega)]
  simp only [finalize, List.length_map, buildSegmentsCore]
  exact mainPassAux_length _ _ _ _ _ _ _ _ _ _

/-- Witness for C2 on a concrete two-point route: its single segment's
normalised score is within bounds. -/
theorem normalizedScore_bounds_witness :
    0 ≤ ((buildSegmentCollection [⟨0, 0⟩, ⟨0, 1⟩] [] [] 0 [] false).getD 0
      emptyFeature).totalScore ∧
    ((buildSegmentCollection [⟨0, 0⟩, ⟨0, 1⟩] [] [] 0 [] false).getD 0
      emptyFeature).totalScore ≤ 1 := by
  have hlen : (2 : ℕ) ≤ ([⟨0, 0⟩, ⟨0, 1⟩] : List Coord).length := by simp
  have h := (normalizedScore_bounds [⟨0, 0⟩, ⟨0, 1⟩] [] [] 0 [] false hlen).1
  have hl : (buildSegmentCollection [⟨0, 0⟩, ⟨0, 1⟩] [] [] 0 [] false).length
      = 1 := by
    rw [buildSegmentCollection_length _ _ _ _ _ _ hlen]
    simp
  have h0 : 0 < (buildSegmentCollection [⟨0, 0⟩, ⟨0, 1⟩] [] [] 0 []
      false).length := by omega
  have hx : (buildSegmentCollection [⟨0, 0⟩, ⟨0, 1⟩] [] [] 0 [] false).getD 0
      emptyFeature ∈ buildSegmentCollection [⟨0, 0⟩, ⟨0, 1⟩] [] [] 0 [] false := by
    rw [List.getD_eq_get?, List.get?_eq_get h0]
    exact List.get_mem _ _ _
  exact h _ hx

lemma segStats_grade_spec (c : List Coord) (sp : List SamplePoint)
    (ad : List (Option (List HourlyWindEntry))) (h : ℕ) (el : List ℝ) (i : ℕ) :
    (0.1 < segDistance c i →
      (segStats c sp ad h el true i).grade =
        max (-GRADE_CLAMP) (min GRADE_CLAMP (segRawGrade c el i))) ∧
    (¬ 0.1 < segDistance c i →
      (segStats c sp ad h el true i).grade = 0 ∧
      (segStats c sp ad h el true i).climbPenalty = 0) ∧
    (0 < (segStats c sp ad h el true i).grade →
      (segStats c sp ad h el true i).climbPenalty =
        CLIMB_K * (segStats c sp ad h el true i).grade) ∧
    ((segStats c sp ad h el true i).grade ≤ 0 →
      (segStats c sp ad h el true i).climbPenalty = 0) := by
  simp only [segStats, segDistance, segRawGrade, eq_self_iff_true, if_true]
  split_ifs with h1 h2 <;>
    refine ⟨?_, ?_, ?_, ?_⟩ <;> intro hx
  · rfl
  · exact absurd h1 hx
  · rfl
  · simp only [GRADE_CLAMP, CLIMB_K] at h2 hx ⊢
    linarith
  · rfl
  · exact absurd h1 hx
  · simp only at hx
    linarith
  · rfl
  · exact absurd hx h1
  · exact ⟨rfl, rfl⟩
  · simp only at hx
    linarith
  · rfl

/-- C4: when elevation is enabled and the elevation array covers every route
point, a segment longer than 0.1 m stores as grade the elevation delta over
its haversine distance clamped to `[-GRADE_CLAMP, GRADE_CLAMP]` (ratios at or
beyond a bound store the bound itself); a segment under 0.1 m keeps grade and
climb penalty 0; and the climb penalty is `CLIMB_K` times the grade for
positive grades and 0 otherwise, so descents never reduce the score. -/
theorem grade_clamp_properties (coords : List Coord) (sp : List SamplePoint)
    (ad : List (Option (List HourlyWindEntry))) (h : ℕ) (el : List ℝ) (i : ℕ)
    (hel : el.length = coords.length) (hi : i + 1 < coords.length) :
    (0.1 < segDistance coords i →
      ((buildSegmentCollection coords sp ad h el true).getD i emptyFeature).grade =
        max (-GRADE_CLAMP) (min GRADE_CLAMP (segRawGrade coords el i)) ∧
      (GRADE_CLAMP ≤ segRawGrade coords el i →
        ((buildSegmentCollection coords sp ad h el true).getD i emptyFeature).grade =
          GRADE_CLAMP) ∧
      (segRawGrade coords el i ≤ -GRADE_CLAMP →
        ((buildSegmentCollection coords sp ad h el true).getD i emptyFeature).grade =
          -GRADE_CLAMP)) ∧
    (segDistance coords i < 0.1 →
      ((buildSegmentCollection coords sp ad h el true).getD i emptyFeature).grade = 0 ∧
      ((buildSegmentCollection coords sp ad h el true).getD i
        emptyFeature).climbPenalty = 0) ∧
    (0 < ((buildSegmentCollection coords sp ad h el true).getD i emptyFeature).grade →
      ((buildSegmentCollection coords sp ad h el true).getD i
        emptyFeature).climbPenalty =
        CLIMB_K * ((buildSegmentCollection coords sp ad h el true).getD i
          emptyFeature).grade) ∧
    (((buildSegmentCollection coords sp ad h el true).getD i emptyFeature).grade ≤ 0 →
      ((buildSegmentCollection coords sp ad h el true).getD i
        emptyFeature).climbPenalty = 0) := by
  have hneg : ¬ coords.length < 2 := by omega
  have hhe : (true && decide (el.length = coords.length)) = true := by simp [hel]
  rw [buildSegmentCollection, if_neg hneg, hhe]
  have hilen : i < (buildSegmentsCore coords sp ad h el true).length := by
    simp only [buildSegmentsCore]
    rw [mainPassAux_length]
    omega
  set r := (buildSegmentsCore coords sp ad h el true).get ⟨i, hilen⟩ with hr
  have hget : (buildSegmentsCore coords sp ad h el true).get? i = some r :=
    List.get?_eq_get hilen
  have hstats : r.toSegStats = segStats coords sp ad h el true i := by
    have := mainPassAux_get_stats coords sp ad h el true (edgeCountsOf coords)
      (coords.length - 1) 0 i (fun _ => 0) r hget
    rwa [Nat.zero_add] at this
  have hfget : (finalize (buildSegmentsCore coords sp ad h el true)).getD i
      emptyFeature =
      { score := r.sufferRaw /
          (((buildSegmentsCore coords sp ad h el true).map
            fun s => s.sufferRaw).foldr max (1e-6)),
        headwindRaw := r.headwindRaw, grade := r.grade,
        climbPenalty := r.climbPenalty, sufferRaw := r.sufferRaw,
        totalScore := r.sufferRaw /
          (((buildSegmentsCore coords sp ad h el true).map
            fun s => s.sufferRaw).foldr max (1e-6)),
        coords := r.coords } := by
    show ((buildSegmentsCore coords sp ad h el true).map _).getD i emptyFeature = _
    rw [List.getD_eq_get?, List.get?_map, hget]
    rfl
  rw [hfget]
  have hspec := segStats_grade_spec coords sp ad h el i
  have hg : (segStats coords sp ad h el true i).grade = r.grade := by rw [hstats]
  have hc : (segStats coords sp ad h el true i).climbPenalty = r.climbPenalty := by
    rw [hstats]
  rw [hg, hc] at hspec
  obtain ⟨hs1, hs2, hs3, hs4⟩ := hspec
  refine ⟨?_, ?_, hs3, hs4⟩
  · intro hdist
    have hgr := hs1 hdist
    refine ⟨hgr, ?_, ?_⟩
    · intro hbig
      rw [hgr, min_eq_left hbig]
      exact max_eq_right (by simp [GRADE_CLAMP]; norm_num)
    · intro hsmall
      have hmin : min GRADE_CLAMP (segRawGrade coords el i) = segRawGrade coords el i :=
        min_eq_right (by simp only [GRADE_CLAMP] at hsmall ⊢; linarith)
      rw [hgr, hmin]
      exact max_eq_left hsmall
  · intro hdist
    exact hs2 (by linarith)

/-- Witness for C4 on a degenerate two-point route (both points equal, so
the segment is under 0.1 m). -/
theorem grade_clamp_properties_witness :
    (segDistance [⟨0, 0⟩, ⟨0, 0⟩] 0 < 0.1 →
      ((buildSegmentCollection [⟨0, 0⟩, ⟨0, 0⟩] [] [] 0 [0, 0] true).getD 0
        emptyFeature).grade = 0 ∧
      ((buildSegmentCollection [⟨0, 0⟩, ⟨0, 0⟩] [] [] 0 [0, 0] true).getD 0
        emptyFeature).climbPenalty = 0) ∧
    (((buildSegmentCollection [⟨0, 0⟩, ⟨0, 0⟩] [] [] 0 [0, 0] true).getD 0
        emptyFeature).grade ≤ 0 →
      ((buildSegmentCollection [⟨0, 0⟩, ⟨0, 0⟩] [] [] 0 [0, 0] true).getD 0
        emptyFeature).climbPenalty = 0) := by
  have h := grade_clamp_properties [⟨0, 0⟩, ⟨0, 0⟩] [] [] 0 [0, 0] 0
    (by simp) (by simp)
  exact ⟨h.2.1, h.2.2.2⟩

lemma jsMod_360_360 : jsMod 360 360 = 0 := by
  have h : ⌊(360 : ℝ) / 360⌋ = 1 := by norm_num
  rw [jsMod, h]
  norm_num

lemma jsMod_540_360 : jsMod 540 360 = 180 := by
  have h : ⌊(540 : ℝ) / 360⌋ = 1 := by norm_num
  rw [jsMod, h]
  norm_num

lemma atan2_zero_pos {x : ℝ} (hx : 0 < x) : atan2 0 x = 0 := by
  rw [atan2]
  have h : (x : ℂ) + (0 : ℝ) * Complex.I = (x : ℂ) := by simp
  rw [h]
  exact Complex.arg_ofReal_of_nonneg hx.le

lemma atan2_zero_neg {x : ℝ} (hx : x < 0) : atan2 0 x = π := by
  rw [atan2]
  have h : (x : ℂ) + (0 : ℝ) * Complex.I = (x : ℂ) := by simp
  rw [h]
  exact Complex.arg_ofReal_of_neg hx

lemma sin_pi_div_180_pos : 0 < Real.sin (π / 180) := by
  apply Real.sin_pos_of_pos_of_lt_pi
  · positivity
  · nlinarith [Real.pi_pos]

lemma bearing_north : computeBearing 0 0 1 0 = 0 := by
  simp only [computeBearing]
  norm_num
  rw [atan2_zero_pos sin_pi_div_180_pos]
  rw [zero_mul, zero_add, jsMod_360_360]

lemma bearing_south : computeBearing 1 0 0 0 = 180 := by
  simp only [computeBearing]
  norm_num
  rw [atan2_zero_neg (neg_neg_iff_pos.2 sin_pi_div_180_pos)]
  rw [show π * (180 / π) = 180 from by
    field_simp]
  rw [show (180 : ℝ) + 360 = 540 from by norm_num, jsMod_540_360]

lemma offset_north_0 : offsetPoint 0 0 0 5 = (5 / 111111, 0) := by
  simp only [offsetPoint]
  rw [show ((0 : ℝ) + 90) * π / 180 = π / 2 from by ring]
  simp [Real.cos_pi_div_two, Real.sin_pi_div_two]

lemma offset_north_1 : offsetPoint 1 0 0 5 = (5 / (111111 * Real.cos (π / 180)), 1) := by
  simp only [offsetPoint]
  rw [show ((0 : ℝ) + 90) * π / 180 = π / 2 from by ring]
  simp [Real.cos_pi_div_two, Real.sin_pi_div_two]

lemma cos_270 : Real.cos (((180 : ℝ) + 90) * π / 180) = 0 := by
  rw [show ((180 : ℝ) + 90) * π / 180 = π + π / 2 from by ring]
  rw [Real.cos_add]
  simp

lemma sin_270 : Real.sin (((180 : ℝ) + 90) * π / 180) = -1 := by
  rw [show ((180 : ℝ) + 90) * π / 180 = π + π / 2 from by ring]
  rw [Real.sin_add]
  simp

lemma offset_south_1 : offsetPoint 1 0 180 (-5) = (5 / (111111 * Real.cos (π / 180)), 1) := by
  simp only [offsetPoint]
  rw [cos_270, sin_270]
  norm_num

lemma offset_south_0 : offsetPoint 0 0 180 (-5) = (5 / 111111, 0) := by
  simp only [offsetPoint]
  rw [cos_270, sin_270]
  norm_num

lemma round5_zero : round5 0 = 0 := by
  rw [round5]
  rw [show (0 : ℝ) * 100000 + 1/2 = 1/2 from by norm_num]
  rw [show ⌊(1/2 : ℝ)⌋ = 0 from by norm_num]
  norm_num

lemma round5_one : round5 1 = 1 := by
  rw [round5]
  rw [show (1 : ℝ) * 100000 + 1/2 = 100000 + 1/2 from by norm_num]
  rw [show ⌊(100000 + 1/2 : ℝ)⌋ = 100000 from by norm_num]
  norm_num

lemma lex_01 : lexLe ((0 : ℝ), (0 : ℝ)) ((1 : ℝ), (0 : ℝ)) :=
  Or.inl (by norm_num)

lemma lex_10 : ¬ lexLe ((1 : ℝ), (0 : ℝ)) ((0 : ℝ), (0 : ℝ)) := by
  rintro (h | ⟨h, _⟩) <;> norm_num at h

lemma key_fwd : getEdgeKey ⟨0, 0⟩ ⟨0, 1⟩ = (((0 : ℝ), (0 : ℝ)), ((1 : ℝ), (0 : ℝ))) := by
  rw [getEdgeKey]
  rw [round5_zero, round5_one]
  rw [if_pos lex_01]

lemma key_bwd : getEdgeKey ⟨0, 1⟩ ⟨0, 0⟩ = (((0 : ℝ), (0 : ℝ)), ((1 : ℝ), (0 : ℝ))) := by
  rw [getEdgeKey]
  rw [round5_zero, round5_one]
  rw [if_neg lex_10]

lemma counts_demo :
    edgeCountsOf demoRoute (((0 : ℝ), (0 : ℝ)), ((1 : ℝ), (0 : ℝ))) = 2 := by
  simp only [edgeCountsOf, demoRoute]
  simp [key_fwd, key_bwd]

lemma counts_demo_lit :
    edgeCountsOf [⟨0, 0⟩, ⟨0, 1⟩, ⟨0, 0⟩]
      (((0 : ℝ), (0 : ℝ)), ((1 : ℝ), (0 : ℝ))) = 2 := counts_demo

lemma segOffset_demo_0 (v : EdgeKey → ℕ)
    (hv : v (((0 : ℝ), (0 : ℝ)), ((1 : ℝ), (0 : ℝ))) = 0) :
    (segOffset demoRoute (edgeCountsOf demoRoute) v 0).1 =
      ((5 / 111111, 0), (5 / (111111 * Real.cos (π / 180)), 1)) ∧
    (segOffset demoRoute (edgeCountsOf demoRoute) v 0).2
      (((0 : ℝ), (0 : ℝ)), ((1 : ℝ), (0 : ℝ))) = 1 := by
  constructor
  · simp only [segOffset, demoRoute, List.getD_cons_zero, List.getD_cons_succ,
      key_fwd, counts_demo_lit, bearing_north, hv, OFFSET_METERS]
    norm_num [offset_north_0, offset_north_1]
  · simp only [segOffset, demoRoute, List.getD_cons_zero, List.getD_cons_succ,
      key_fwd, counts_demo_lit, bearing_north, hv, OFFSET_METERS]
    norm_num [-Prod.mk_zero_zero]
    intro hne
    exact absurd key_fwd.symm hne

lemma segOffset_demo_1 (v : EdgeKey → ℕ)
    (hv : v (((0 : ℝ), (0 : ℝ)), ((1 : ℝ), (0 : ℝ))) = 1) :
    (segOffset demoRoute (edgeCountsOf demoRoute) v 1).1 =
      ((5 / (111111 * Real.cos (π / 180)), 1), (5 / 111111, 0)) := by
  simp only [segOffset, demoRoute, List.getD_cons_zero, List.getD_cons_succ,
    key_bwd, counts_demo_lit, bearing_south, hv, OFFSET_METERS]
  norm_num [offset_south_0, offset_south_1]

lemma finalize_map_coords (segs : List SegRecord) :
    (finalize segs).map (fun f => f.coords) = segs.map (fun s => s.coords) := by
  simp only [finalize, List.map_map]
  rfl

/-- C1 (divergence witness): on the out-and-back route `[[0,0],[0,1],[0,0]]`
the two produced segment geometries are exact reverses of one another — both
traversals are shifted about 5 m to the same (eastern) side of the original
edge, because the `-OFFSET_METERS` of the second visit cancels against its
180-degree-flipped bearing.  The offset is applied (the points differ from
the originals), but the two lines coincide instead of lying on opposite
sides. -/
theorem edgeOverlap_offsets_same_side :
    (buildSegmentCollection demoRoute [] [] 0 [] false).map (fun f => f.coords) =
      [((5 / 111111, 0), (5 / (111111 * Real.cos (π / 180)), 1)),
       ((5 / (111111 * Real.cos (π / 180)), 1), (5 / 111111, 0))] := by
  have hv0 : (fun _ : EdgeKey => 0) (((0 : ℝ), (0 : ℝ)), ((1 : ℝ), (0 : ℝ))) = 0 := rfl
  have h0 := segOffset_demo_0 (fun _ => 0) hv0
  have h1 := segOffset_demo_1
    ((segOffset demoRoute (edgeCountsOf demoRoute) (fun _ => 0) 0).2) h0.2
  rw [buildSegmentCollection, if_neg (by simp [demoRoute])]
  rw [finalize_map_coords]
  simp only [buildSegmentsCore]
  rw [show demoRoute.length - 1 = 2 from by simp [demoRoute]]
  simp only [mainPassAux, List.map_cons, List.map_nil]
  rw [h0.1, h1]
